import Mathlib

/-!
Shallow embedding of the variable-source light-curve engine
(`Variability.py` of sims_photUtils) and proofs about its behaviour.

Floating-point numbers of the source are modelled as real numbers; the
scipy interpolation objects are modelled as records holding the data they
were built from, with their numerical evaluation kept abstract (a function
parameter).  Python failure points (missing file, too-short time axis or
interpolation grid, the explicit `raise` in applyAgn, negative draw
counts, `min` of an empty sequence, float-to-int conversion of inf/nan)
are modelled with `Except`; float divisions by zero themselves only warn
in numpy and are where relevant followed by the failure they lead to.
-/

namespace PhotUtils

noncomputable section

open Real

/-- The six photometric band labels u, g, r, i, z, y. -/
inductive Band : Type
  | u | g | r | i | z | y
deriving DecidableEq

/-- The fixed band order used by the source when filling result
dictionaries (bluest to reddest). -/
def allBands : List Band := [.u, .g, .r, .i, .z, .y]

/-- Position of a band in the blue-to-red order. -/
def bandIndex : Band → ℕ
  | .u => 0
  | .g => 1
  | .r => 2
  | .i => 3
  | .z => 4
  | .y => 5

/-- A tabulated light-curve file: `times` is the leading phase/time column
(`lc[0]` in the source) and `flux b` is the column for band `b`
(`lc[1]` .. `lc[6]`). -/
structure LightCurve where
  times : List ℝ
  flux : Band → List ℝ

/-- The interpolator kinds used by the source: `interp1d` is the
piecewise-linear default, `iuSpline` is scipy InterpolatedUnivariateSpline. -/
inductive InterpKind : Type
  | interp1d | iuSpline
deriving DecidableEq

/-- An interpolator instance: the kind it was built with and the data
arrays it was built over.  Numerical evaluation is abstract. -/
structure Spline where
  kind : InterpKind
  xs : List ℝ
  ys : List ℝ

/-- A cache entry: the six per-band interpolators and the period,
exactly what applyStdPeriodic stores under a file name. -/
structure CacheEntry where
  splines : Band → Spline
  period : ℝ

/-- The mutable state of a Variability instance that applyStdPeriodic
touches: the light-curve cache (`variabilityLcCache`, an insert-ordered
association list, later inserts shadowing earlier ones like Python dict
assignment) and the cache-enable flag (`variabilityCache`). -/
structure VarState where
  variabilityLcCache : List (String × CacheEntry)
  variabilityCache : Bool

/-- State produced by `initializeVariability(doCache)`: empty cache. -/
def initState (doCache : Bool) : VarState := ⟨[], doCache⟩

/-- First-match lookup in the cache association list
(`self.variabilityLcCache.has_key(filename)` / indexing). -/
def cacheGet : List (String × CacheEntry) → String → Option CacheEntry
  | [], _ => none
  | (k, e) :: rest, f => if k = f then some e else cacheGet rest f

/-- Lookup of a band in a result dictionary. -/
def bandGet : List (Band × List ℝ) → Band → Option (List ℝ)
  | [], _ => none
  | (b1, v) :: rest, b => if b1 = b then some v else bandGet rest b

/-- `min` of a nonempty numeric sequence (junk value 0 on []). -/
def listMin : List ℝ → ℝ
  | [] => 0
  | x :: xs => xs.foldl min x

/-- `max` of a nonempty numeric sequence (junk value 0 on []). -/
def listMax : List ℝ → ℝ
  | [] => 0
  | x :: xs => xs.foldl max x

/-- `numpy.linspace a b n`: `n` evenly spaced points from `a` to `b`
inclusive; `[a]` for `n = 1`, `[]` for `n = 0`. -/
def linspace (a b : ℝ) : ℕ → List ℝ
  | 0 => []
  | 1 => [a]
  | n + 2 => (List.range (n + 2)).map (fun (i : ℕ) => a + (b - a) * i / (n + 1))

/-- Piecewise-linear interpolation (`scipy.interpolate.interp1d`) over the
grid `xs` with values `ys`, evaluated at `t`.  Behaviour outside the grid
is junk (the source only evaluates in range). -/
def linInterp : List ℝ → List ℝ → ℝ → ℝ
  | x1 :: x2 :: xs, y1 :: y2 :: ys, t =>
      if t ≤ x2 then y1 + (y2 - y1) * (t - x1) / (x2 - x1)
      else linInterp (x2 :: xs) (y2 :: ys) t
  | _ :: _, y1 :: _, _ => y1
  | _, _, _ => 0

/-- Failure points of the engine.  `valueError` models scipy/numpy
ValueErrors (a draw request with negative size, an interpolation grid
with fewer than two entries); `intCastError` models
`int(math.ceil(...))` applied to an infinite or nan float, which raises
OverflowError or ValueError; `sqrtDomain` models `math.sqrt` of a
negative number. -/
inductive VarErr : Type
  | fileNotFound
  | shortTimeAxis
  | invalidParameters
  | intCastError
  | sqrtDomain
  | emptyEpochs
  | valueError
deriving DecidableEq

/-- Last element of the time axis, `lc[0][-1]` (junk 0 on []). -/
def lastD (l : List ℝ) : ℝ := l.getD (l.length - 1) 0

/-- Inferred template period when no override is given:
`dt = lc[0][1] - lc[0][0]; period = lc[0][-1] + dt`. -/
def inferPeriod (ts : List ℝ) : ℝ := lastD ts + (ts.getD 1 0 - ts.getD 0 0)

/-- The period-inference formula as the specification words it:
(last sample time − first sample time) + (spacing of the first two
points).  Used only to compare the spec against the code. -/
def specInferredPeriod (ts : List ℝ) : ℝ :=
  (lastD ts - ts.getD 0 0) + (ts.getD 1 0 - ts.getD 0 0)

/-- Phase folding: `phase = epoch/period - epoch//period` where `//` is
floor division. -/
def foldPhase (e p : ℝ) : ℝ := e / p - ⌊e / p⌋

/-- Build the six per-band interpolators over the (possibly normalized)
axis from the light-curve columns. -/
def buildSplines (kind : InterpKind) (axis : List ℝ) (lc : LightCurve) :
    Band → Spline :=
  fun b => ⟨kind, axis, lc.flux b⟩

/-- The magnitude-offset dictionary of applyStdPeriodic: each band's
interpolator evaluated at the folded phase of every epoch. -/
def stdMagoff (evalS : Spline → ℝ → ℝ) (splines : Band → Spline)
    (period : ℝ) (epoch : List ℝ) : List (Band × List ℝ) :=
  allBands.map (fun b => (b, epoch.map (fun e => evalS (splines b) (foldPhase e period))))

/-- Result of one applyStdPeriodic call: the offsets, the state after the
call, and whether the template file was read from disk. -/
structure StdResult where
  magoff : List (Band × List ℝ)
  state : VarState
  didRead : Bool

/-- `applyStdPeriodic`.  `fs` models the on-disk template files, `evalS`
the numerical evaluation of an interpolator.  On a cache hit the cached
interpolators and period are used; on a miss the file is read, the period
is inferred (when `inPeriod` is none), the axis is normalized (when
`inDays`), interpolators are built with the requested kind and, if caching
is enabled, stored. -/
def applyStdPeriodic (fs : String → Option LightCurve) (evalS : Spline → ℝ → ℝ)
    (expmjd : List ℝ) (filename : String) (toff : ℝ)
    (inPeriod : Option ℝ) (inDays : Bool) (interpFactory : Option InterpKind)
    (st : VarState) : Except VarErr StdResult :=
  let epoch := expmjd.map (fun e => e - toff)
  match cacheGet st.variabilityLcCache filename with
  | some entry =>
      .ok ⟨stdMagoff evalS entry.splines entry.period epoch, st, false⟩
  | none =>
      match fs filename with
      | none => .error .fileNotFound
      | some lc =>
          let periodE : Except VarErr ℝ :=
            match inPeriod with
            | none =>
                if lc.times.length < 2 then .error .shortTimeAxis
                else .ok (inferPeriod lc.times)
            | some p => .ok p
          periodE.bind (fun period =>
            let axis := if inDays then lc.times.map (fun t => t / period) else lc.times
            let kind := interpFactory.getD .interp1d
            let splines := buildSplines kind axis lc
            let st1 : VarState :=
              if st.variabilityCache then
                ⟨(filename, ⟨splines, period⟩) :: st.variabilityLcCache, st.variabilityCache⟩
              else st
            .ok ⟨stdMagoff evalS splines period epoch, st1, true⟩)

/-- Negate every band array of a result dictionary (`magoff[k] = -magoff[k]`). -/
def negMagoff (mo : List (Band × List ℝ)) : List (Band × List ℝ) :=
  mo.map (fun p => (p.1, p.2.map (fun v => -v)))

/-- The flare file-name rewrite:
`"mflare/" + lcfilename[:-5] + "1.dat"`. -/
def mflareFilename (s : String) : String := "mflare/" ++ s.dropRight 5 ++ "1.dat"

/-- `applyMflare`: standard periodic recipe with the rewritten file name,
period given by the event `length`, and negated offsets. -/
def applyMflare (fs : String → Option LightCurve) (evalS : Spline → ℝ → ℝ)
    (expmjd : List ℝ) (lcfilename : String) (t0 length : ℝ)
    (st : VarState) : Except VarErr StdResult :=
  (applyStdPeriodic fs evalS expmjd (mflareFilename lcfilename) t0
      (some length) true none st).map
    (fun r => ⟨negMagoff r.magoff, r.state, r.didRead⟩)

/-- `applyRRly`: standard periodic recipe, inferred period, spline kind. -/
def applyRRly (fs : String → Option LightCurve) (evalS : Spline → ℝ → ℝ)
    (expmjd : List ℝ) (filename : String) (tStartMjd : ℝ)
    (st : VarState) : Except VarErr StdResult :=
  applyStdPeriodic fs evalS expmjd filename tStartMjd none true
    (some .iuSpline) st

/-- `applyCepheid`: explicit period, axis not normalized, spline kind. -/
def applyCepheid (fs : String → Option LightCurve) (evalS : Spline → ℝ → ℝ)
    (expmjd : List ℝ) (lcfile : String) (t0 period : ℝ)
    (st : VarState) : Except VarErr StdResult :=
  applyStdPeriodic fs evalS expmjd lcfile t0 (some period) false
    (some .iuSpline) st

/-- `applyEb`: standard periodic recipe whose template values are flux
ratios, converted per band via `dMags[k] = -2.5*log10(dMags[k])`. -/
def applyEb (fs : String → Option LightCurve) (evalS : Spline → ℝ → ℝ)
    (expmjd : List ℝ) (lcfile : String) (t0 : ℝ)
    (st : VarState) : Except VarErr StdResult :=
  (applyStdPeriodic fs evalS expmjd lcfile t0 none true
      (some .iuSpline) st).map
    (fun r => ⟨r.magoff.map (fun p => (p.1, p.2.map (fun v => -2.5 * logb 10 v))),
               r.state, r.didRead⟩)

/-- The impact parameter `u(t) = sqrt(umin^2 + (2*epoch/that)^2)` shared
by both single-lens microlensing evaluators (`epoch = t - t0`). -/
def microU (umin that e : ℝ) : ℝ := Real.sqrt (umin ^ 2 + (2.0 * e / that) ^ 2)

/-- Point-lens magnification of `applyMicrolens`:
`(u^2+2)/(u*sqrt(u^2+4))`. -/
def microMagA (u : ℝ) : ℝ := (u ^ 2 + 2.0) / (u * Real.sqrt (u ^ 2 + 4.0))

/-- Magnification of `applyMicrolensing`: `(u+2)/(u*sqrt(u^2+4))`. -/
def microMagB (u : ℝ) : ℝ := (u + 2.0) / (u * Real.sqrt (u ^ 2 + 4.0))

/-- Per-epoch magnitude offset of `applyMicrolens`. -/
def microDmagA (umin that e : ℝ) : ℝ :=
  -2.5 * logb 10 (microMagA (microU umin that e))

/-- Per-epoch magnitude offset of `applyMicrolensing`. -/
def microDmagB (umin that e : ℝ) : ℝ :=
  -2.5 * logb 10 (microMagB (microU umin that e))

/-- `applyMicrolens`: achromatic point-lens light curve, the same offset
array assigned to all six bands. -/
def applyMicrolens (expmjd : List ℝ) (t0 umin that : ℝ) :
    List (Band × List ℝ) :=
  let epochs := expmjd.map (fun t => t - t0)
  let dmag := epochs.map (fun e => microDmagA umin that e)
  allBands.map (fun b => (b, dmag))

/-- `applyMicrolensing`: the second microlensing parameterization, again
achromatic. -/
def applyMicrolensing (expmjd : List ℝ) (t0 umin that : ℝ) :
    List (Band × List ℝ) :=
  let epochs := expmjd.map (fun t => t - t0)
  let dmag := epochs.map (fun e => microDmagB umin that e)
  allBands.map (fun b => (b, dmag))

/-- Parameters of the AGN damped-random-walk model. -/
structure AgnParams where
  t0 : ℝ
  seed : ℤ
  sfint : Band → ℝ
  tau : ℝ

/-- Number of simulation bins of applyAgn:
`nbins = int(math.ceil(endepoch/(tau/100)))` (as an integer, possibly
nonpositive for degenerate inputs). -/
def agnNbinsZ (expmjd : List ℝ) (p : AgnParams) : ℤ :=
  ⌈listMax (expmjd.map (fun e => e - p.t0)) / (p.tau / 100)⌉

/-- The crossing count actually passed to the random generator. -/
def agnNbins (expmjd : List ℝ) (p : AgnParams) : ℕ :=
  (agnNbinsZ expmjd p).toNat

/-- The damped-random-walk recurrence:
`dx[0] = 0;  dx[i+1] = -dx[i]*dt + sf*es[i]*sdt + dx[i]`. -/
def agnDx (dt sdt sf : ℝ) (es : ℕ → ℝ) : ℕ → ℝ
  | 0 => 0
  | n + 1 => -(agnDx dt sdt sf es n) * dt + sf * es n * sdt + agnDx dt sdt sf es n

/-- `applyAgn`.  `g` models the seeded pseudo-random generator:
`g seed n i` is the i-th of the `n` standard-normal draws produced after
seeding with `seed` (numpy.random is deterministic given the seed, so `g`
is a function).  Failure points, in the order the source hits them:
empty epoch array (`min` of an empty sequence raises); an epoch before
`t0` (the explicit raise); `tau = 0`, where `endepoch/dt` is inf or nan
(the float division only warns) and `int(math.ceil(...))` raises an
OverflowError or ValueError; a negative bin count (numpy.random.normal
with a negative size raises ValueError); a negative square-root argument
(math.sqrt raises ValueError); and `nbins = 0`, where the float division
`endepoch/nbins` only warns and yields a nan bin width, the empty draw
and the one-point `dx` succeed, and the call fails at interp1d
construction over the one-point grid with scipy's ValueError (interp1d
requires at least two grid entries). -/
def applyAgn (g : ℤ → ℕ → ℕ → ℝ) (expmjd : List ℝ) (p : AgnParams) :
    Except VarErr (List (Band × List ℝ)) :=
  if expmjd = [] then .error .emptyEpochs
  else
    let epochs := expmjd.map (fun e => e - p.t0)
    if listMin epochs < 0 then .error .invalidParameters
    else
      let endepoch := listMax epochs
      if p.tau / 100 = 0 then .error .intCastError
      else
        let nbinsZ := agnNbinsZ expmjd p
        if nbinsZ < 0 then .error .valueError
        else
          let nbins := agnNbins expmjd p
          let dt := endepoch / nbins / p.tau
          if dt < 0 then .error .sqrtDomain
          else
            let sdt := Real.sqrt dt
            let es := g p.seed nbins
            let x := linspace 0 endepoch (nbins + 1)
            if x.length < 2 then .error .valueError
            else
              .ok (allBands.map (fun b =>
                let dx := (List.range (nbins + 1)).map (agnDx dt sdt (p.sfint b) es)
                (b, epochs.map (fun e => linInterp x dx e))))

/-- Parameters of the AM CVn model. -/
structure AmcvnParams where
  amplitude : ℝ
  t0 : ℝ
  period : ℝ
  does_burst : Bool
  burst_freq : ℝ
  burst_scale : ℝ
  amp_burst : ℝ
  color_excess_during_burst : ℝ

/-- Burst pulse centers:
`numpy.linspace(t0 + burst_freq, t0 + 10*365.25, ceil(10*365.25/burst_freq))`. -/
def burstCenters (p : AmcvnParams) : List ℝ :=
  linspace (p.t0 + p.burst_freq) (p.t0 + 10 * 365.25)
    (⌈10 * 365.25 / p.burst_freq⌉).toNat

/-- The baseline achromatic sinusoid
`amplitude * cos((epochs - t0)/period)`. -/
def amcvnBase (expmjd : List ℝ) (p : AmcvnParams) : List ℝ :=
  expmjd.map (fun e => p.amplitude * Real.cos ((e - p.t0) / p.period))

/-- The burst-contribution array `adds`: per epoch, minus the sum over
burst centers of `amp_burst * tmp * (tmp < 1)` with
`tmp = exp(-(epoch-o)/burst_scale)/exp(-1)`.  Exact-real model of the
float computation: it agrees with the float64 code only while every
decay exponent stays finite in float64 (numpy.exp overflows to inf above
roughly 709.78, merely warning, and the indicator product is then
`inf * 0 = nan` where this model's `huge * 0 = 0`); the theorems about
the burst minimum therefore carry an explicit no-overflow hypothesis or
use inputs in the finite regime. -/
def amcvnAdds (expmjd : List ℝ) (p : AmcvnParams) : List ℝ :=
  expmjd.map (fun e =>
    (burstCenters p).foldl (fun acc o =>
      let tmp := Real.exp (-(e - o) / p.burst_scale) / Real.exp (-1)
      acc - p.amp_burst * tmp * (if tmp < 1.0 then 1 else 0)) 0)

/-- `applyAmcvn`: baseline sinusoid in all bands; with bursting, the burst
contribution is added to every band and the three bluest bands receive an
extra color-excess term weighted 2.0 / 1.0 / 0.5 times
`color_excess_during_burst * adds / min(adds)`. -/
def applyAmcvn (expmjd : List ℝ) (p : AmcvnParams) :
    Except VarErr (List (Band × List ℝ)) :=
  let uLc := amcvnBase expmjd p
  if p.does_burst then
    if expmjd = [] then .error .emptyEpochs
    else
      let adds := amcvnAdds expmjd p
      let m := listMin adds
      let wBand := fun (w : ℝ) =>
        List.zipWith (fun base a =>
          base + (a + w * p.color_excess_during_burst * a / m)) uLc adds
      let plain := List.zipWith (fun base a => base + a) uLc adds
      .ok [(.u, wBand 2.0), (.g, wBand 1.0), (.r, wBand 0.5),
           (.i, plain), (.z, plain), (.y, plain)]
  else
    .ok (allBands.map (fun b => (b, uLc)))

/-- The per-band color-excess weights of applyAmcvn, read off the burst
branch: 2.0 for u, 1.0 for g, 0.5 for r, none for i, z, y. -/
def amcvnWeight : Band → ℝ
  | .u => 2.0
  | .g => 1.0
  | .r => 0.5
  | _ => 0

/-- `applyBHMicrolens`.  `bhEval xs ys t` models evaluation of the
InterpolatedUnivariateSpline built over `(xs, ys)`.  The template time
axis (in years) is rescaled by 365; epochs strictly outside
`[minage, maxage]` get magnification 1, others the spline value over the
first flux column; all six bands receive `-2.5 * log(magnification)`
(natural logarithm). -/
def applyBHMicrolens (fs : String → Option LightCurve)
    (bhEval : List ℝ → List ℝ → ℝ → ℝ)
    (expmjd : List ℝ) (filename : String) (t0 : ℝ) :
    Except VarErr (List (Band × List ℝ)) :=
  let epoch := expmjd.map (fun e => e - t0)
  match fs filename with
  | none => .error .fileNotFound
  | some lc =>
      if lc.times.length < 2 then .error .shortTimeAxis
      else
        let times := lc.times.map (fun t => t * 365)
        let minage := times.getD 0 0
        let maxage := lastD times
        let moff := epoch.map (fun ep =>
          if ep < minage ∨ ep > maxage then 1 else bhEval times (lc.flux .u) ep)
        .ok (allBands.map (fun b => (b, moff.map (fun mo => -2.5 * Real.log mo))))

/-- A well-formed result dictionary: entries for exactly the six band
labels in order u, g, r, i, z, y, each holding one value per observation
epoch. -/
def wellFormed (expmjd : List ℝ) (mo : List (Band × List ℝ)) : Prop :=
  mo.map Prod.fst = allBands ∧ ∀ pr ∈ mo, pr.2.length = expmjd.length

/-! ### Concrete fixtures used by witnesses and counterexamples -/

/-- A template whose time axis does not start at 0. -/
def exLc : LightCurve := ⟨[1, 2, 3], fun _ => [0, 0, 0]⟩

/-- A one-file file system holding `exLc`. -/
def exFs : String → Option LightCurve :=
  fun f => if f = "lc.dat" then some exLc else none

/-- Interpolator evaluation that returns the query point itself, making
the folded phase directly observable in the output. -/
def phaseEval : Spline → ℝ → ℝ := fun _ t => t

/-- A concrete cache entry. -/
def exEntry : CacheEntry := ⟨buildSplines .interp1d [0] exLc, 4⟩

/-- A state whose cache already holds an entry for "lc.dat". -/
def exHitState : VarState := ⟨[("lc.dat", exEntry)], true⟩

/-- A concrete deterministic stand-in for the seeded normal generator. -/
def zeroDraws : ℤ → ℕ → ℕ → ℝ := fun _ _ _ => 0

/-- A second concrete generator, pointwise equal to `zeroDraws`. -/
def zeroDraws2 : ℤ → ℕ → ℕ → ℝ := fun _ _ _ => 0

/-- Concrete AGN parameters with `t0 = 5`, `tau = 100`. -/
def exAgnP : AgnParams := ⟨5, 42, fun _ => 1, 100⟩

/-- Whether an Except value is a normal return. -/
def exceptOk {ε α : Type} : Except ε α → Bool
  | .ok _ => true
  | .error _ => false

/-- Concrete AM CVn parameters: zero baseline amplitude, bursting on,
burst frequency 3652.5 days (a single burst center), burst scale 1,
burst amplitude 1, color excess 1. -/
def exAmcvnP : AmcvnParams := ⟨0, 0, 1, true, 3652.5, 1, 1, 1⟩

/-- Concrete AM CVn parameters with bursting disabled. -/
def exAmcvnNoBurst : AmcvnParams := ⟨1, 0, 1, false, 1, 1, 1, 1⟩

/-- A concrete black-hole microlensing template (ages 0 and 1 years). -/
def bhLc : LightCurve := ⟨[0, 1], fun _ => [2, 3]⟩

/-- A one-file file system holding `bhLc`. -/
def bhFs : String → Option LightCurve :=
  fun f => if f = "bh.dat" then some bhLc else none

/-- A concrete stand-in for spline evaluation, constantly 2. -/
def twoEval : List ℝ → List ℝ → ℝ → ℝ := fun _ _ _ => 2

/-! ### Helper lemmas about list minima and maxima -/

theorem foldl_min_le_init (l : List ℝ) (init : ℝ) : l.foldl min init ≤ init := by
  induction l generalizing init with
  | nil => exact le_refl _
  | cons a l ih => exact le_trans (ih (min init a)) (min_le_left _ _)

theorem foldl_min_le_of_mem {a : ℝ} {l : List ℝ} (init : ℝ) (h : a ∈ l) :
    l.foldl min init ≤ a := by
  induction l generalizing init with
  | nil => cases h
  | cons b l ih =>
      rcases List.mem_cons.mp h with h1 | h1
      · subst h1
        exact le_trans (foldl_min_le_init l (min init a)) (min_le_right init a)
      · exact ih _ h1

theorem foldl_min_mem (l : List ℝ) (init : ℝ) :
    l.foldl min init = init ∨ l.foldl min init ∈ l := by
  induction l generalizing init with
  | nil => exact Or.inl rfl
  | cons b l ih =>
      rcases ih (min init b) with h | h
      · rcases min_choice init b with h1 | h1
        · exact Or.inl (by simpa [h1] using h)
        · refine Or.inr ?_
          rw [List.foldl_cons, h, h1]
          exact List.mem_cons_self _ _
      · exact Or.inr (List.mem_cons_of_mem _ h)

theorem le_foldl_max_init (l : List ℝ) (init : ℝ) : init ≤ l.foldl max init := by
  induction l generalizing init with
  | nil => exact le_refl _
  | cons a l ih => exact le_trans (le_max_left _ _) (ih (max init a))

theorem le_foldl_max_of_mem {a : ℝ} {l : List ℝ} (init : ℝ) (h : a ∈ l) :
    a ≤ l.foldl max init := by
  induction l generalizing init with
  | nil => cases h
  | cons b l ih =>
      rcases List.mem_cons.mp h with h1 | h1
      · subst h1
        exact le_trans (le_max_right _ _) (le_foldl_max_init _ _)
      · exact ih _ h1

theorem foldl_max_mem (l : List ℝ) (init : ℝ) :
    l.foldl max init = init ∨ l.foldl max init ∈ l := by
  induction l generalizing init with
  | nil => exact Or.inl rfl
  | cons b l ih =>
      rcases ih (max init b) with h | h
      · rcases max_choice init b with h1 | h1
        · exact Or.inl (by simpa [h1] using h)
        · refine Or.inr ?_
          rw [List.foldl_cons, h, h1]
          exact List.mem_cons_self _ _
      · exact Or.inr (List.mem_cons_of_mem _ h)

theorem listMin_le_of_mem {a : ℝ} {l : List ℝ} (h : a ∈ l) : listMin l ≤ a := by
  cases l with
  | nil => cases h
  | cons x xs =>
      rcases List.mem_cons.mp h with h1 | h1
      · subst h1; exact foldl_min_le_init _ _
      · exact foldl_min_le_of_mem _ h1

theorem listMin_mem {l : List ℝ} (h : l ≠ []) : listMin l ∈ l := by
  cases l with
  | nil => exact absurd rfl h
  | cons x xs =>
      rcases foldl_min_mem xs x with h1 | h1
      · show xs.foldl min x ∈ x :: xs
        rw [h1]
        exact List.mem_cons_self _ _
      · exact List.mem_cons_of_mem _ h1

theorem le_listMax_of_mem {a : ℝ} {l : List ℝ} (h : a ∈ l) : a ≤ listMax l := by
  cases l with
  | nil => cases h
  | cons x xs =>
      rcases List.mem_cons.mp h with h1 | h1
      · subst h1; exact le_foldl_max_init _ _
      · exact le_foldl_max_of_mem _ h1

theorem listMax_mem {l : List ℝ} (h : l ≠ []) : listMax l ∈ l := by
  cases l with
  | nil => exact absurd rfl h
  | cons x xs =>
      rcases foldl_max_mem xs x with h1 | h1
      · show xs.foldl max x ∈ x :: xs
        rw [h1]
        exact List.mem_cons_self _ _
      · exact List.mem_cons_of_mem _ h1

/-! ### C1: inference of the template period in applyStdPeriodic -/

/-- C1 counterexample: on the time axis [1, 2, 3] the code infers period
`lc[0][-1] + dt = 4` and folds epoch 2 to phase 1/2, while the claimed
formula (last − first) + spacing gives period 3 and phase 2/3.  The claim
as stated is false for a template whose first sample time is not 0. -/
theorem applyStdPeriodic_specPeriodFormula_counterexample :
    applyStdPeriodic exFs phaseEval [2] "lc.dat" 0 none true none (initState false) =
      .ok ⟨allBands.map (fun b => (b, [1 / 2])), initState false, true⟩ ∧
    specInferredPeriod [1, 2, 3] = 3 ∧
    (2 : ℝ) / specInferredPeriod [1, 2, 3] -
        ⌊(2 : ℝ) / specInferredPeriod [1, 2, 3]⌋ = 2 / 3 ∧
    (1 / 2 : ℝ) ≠ 2 / 3 := by
  refine ⟨?_, ?_, ?_, by norm_num⟩
  · simp only [applyStdPeriodic, initState, cacheGet, exFs, if_pos rfl, exLc,
      reduceCtorEq, stdMagoff, buildSplines, foldPhase, inferPeriod, lastD, phaseEval]
    norm_num [Except.bind, allBands]
  · norm_num [specInferredPeriod, lastD]
  · norm_num [specInferredPeriod, lastD]

/-- C1 amended: when no period override is supplied (and the file is
readable with at least two samples), the period used both for phase
folding and for axis normalization is
`inferPeriod = (last sample time) + (spacing of the first two samples)` —
not (last − first) + spacing. -/
theorem applyStdPeriodic_inferredPeriod (fs : String → Option LightCurve)
    (evalS : Spline → ℝ → ℝ) (expmjd : List ℝ) (filename : String) (toff : ℝ)
    (inDays : Bool) (interpFactory : Option InterpKind) (st : VarState)
    (lc : LightCurve)
    (hmiss : cacheGet st.variabilityLcCache filename = none)
    (hfs : fs filename = some lc) (hlen : 2 ≤ lc.times.length) :
    applyStdPeriodic fs evalS expmjd filename toff none inDays interpFactory st =
      .ok ⟨stdMagoff evalS
             (buildSplines (interpFactory.getD .interp1d)
               (if inDays then lc.times.map (fun t => t / inferPeriod lc.times)
                else lc.times) lc)
             (inferPeriod lc.times)
             (expmjd.map (fun e => e - toff)),
           if st.variabilityCache then
             ⟨(filename,
               ⟨buildSplines (interpFactory.getD .interp1d)
                  (if inDays then lc.times.map (fun t => t / inferPeriod lc.times)
                   else lc.times) lc,
                inferPeriod lc.times⟩) :: st.variabilityLcCache,
              st.variabilityCache⟩
           else st,
           true⟩ ∧
    inferPeriod lc.times =
      lastD lc.times + (lc.times.getD 1 0 - lc.times.getD 0 0) := by
  constructor
  · simp only [applyStdPeriodic, hmiss, hfs]
    have hnot : ¬ lc.times.length < 2 := by omega
    simp [hnot, Except.bind]
  · rfl

/-- Witness for the amended C1 theorem at a concrete input. -/
theorem applyStdPeriodic_inferredPeriod_witness :
    applyStdPeriodic exFs phaseEval [2] "lc.dat" 0 none true none (initState false) =
      .ok ⟨stdMagoff phaseEval
             (buildSplines .interp1d (exLc.times.map (fun t => t / inferPeriod exLc.times)) exLc)
             (inferPeriod exLc.times) [2 - 0],
           initState false, true⟩ ∧
    inferPeriod exLc.times =
      lastD exLc.times + (exLc.times.getD 1 0 - exLc.times.getD 0 0) := by
  have h := applyStdPeriodic_inferredPeriod exFs phaseEval [2] "lc.dat" 0 true none
    (initState false) exLc (by rfl) (by simp [exFs]) (by norm_num [exLc])
  simpa [initState, exLc] using h

/-! ### C2: cache behaviour of applyStdPeriodic -/

/-- C2: (1) on a cache hit the cached interpolators and period are
returned, the file is not read, the state is unchanged, and the request's
interpolator kind, period override and normalization flag are all ignored;
(2) on a miss with caching enabled the file is read and the interpolators
built with the requested kind are stored under the file name;
(3) with caching disabled the state is never modified and every call on an
uncached file reads the file and rebuilds with the requested kind;
(4) hence a second call after a first load with caching enabled returns
the stored interpolators — carrying the FIRST call's kind — without a
read, whatever kind the second call requests. -/
theorem applyStdPeriodic_cacheBehaviour (fs : String → Option LightCurve)
    (evalS : Spline → ℝ → ℝ) (filename : String) :
    (∀ (expmjd : List ℝ) (toff : ℝ) (st : VarState) (entry : CacheEntry)
        (inPeriod : Option ℝ) (inDays : Bool) (interpFactory : Option InterpKind),
      cacheGet st.variabilityLcCache filename = some entry →
      applyStdPeriodic fs evalS expmjd filename toff inPeriod inDays interpFactory st =
        .ok ⟨stdMagoff evalS entry.splines entry.period (expmjd.map (fun e => e - toff)),
             st, false⟩) ∧
    (∀ (expmjd : List ℝ) (toff : ℝ) (st : VarState) (lc : LightCurve)
        (inPeriod : Option ℝ) (inDays : Bool) (interpFactory : Option InterpKind)
        (r : StdResult),
      st.variabilityCache = true →
      cacheGet st.variabilityLcCache filename = none →
      fs filename = some lc →
      applyStdPeriodic fs evalS expmjd filename toff inPeriod inDays interpFactory st = .ok r →
      r.didRead = true ∧
      ∃ period : ℝ,
        cacheGet r.state.variabilityLcCache filename =
          some ⟨buildSplines (interpFactory.getD .interp1d)
                  (if inDays then lc.times.map (fun t => t / period) else lc.times) lc,
                period⟩) ∧
    (∀ (expmjd : List ℝ) (toff : ℝ) (st : VarState)
        (inPeriod : Option ℝ) (inDays : Bool) (interpFactory : Option InterpKind)
        (r : StdResult),
      st.variabilityCache = false →
      applyStdPeriodic fs evalS expmjd filename toff inPeriod inDays interpFactory st = .ok r →
      r.state = st ∧
      (cacheGet st.variabilityLcCache filename = none → r.didRead = true)) ∧
    (∀ (expmjd : List ℝ) (toff : ℝ) (st : VarState) (lc : LightCurve)
        (inP1 : Option ℝ) (inD1 : Bool) (k1 : Option InterpKind)
        (inP2 : Option ℝ) (inD2 : Bool) (k2 : Option InterpKind)
        (r1 : StdResult),
      st.variabilityCache = true →
      cacheGet st.variabilityLcCache filename = none →
      fs filename = some lc →
      applyStdPeriodic fs evalS expmjd filename toff inP1 inD1 k1 st = .ok r1 →
      ∃ entry : CacheEntry,
        cacheGet r1.state.variabilityLcCache filename = some entry ∧
        entry.splines = buildSplines (k1.getD .interp1d)
            (if inD1 then lc.times.map (fun t => t / entry.period) else lc.times) lc ∧
        applyStdPeriodic fs evalS expmjd filename toff inP2 inD2 k2 r1.state =
          .ok ⟨stdMagoff evalS entry.splines entry.period
                 (expmjd.map (fun e => e - toff)), r1.state, false⟩) := by
  have hit : ∀ (expmjd : List ℝ) (toff : ℝ) (st : VarState) (entry : CacheEntry)
      (inPeriod : Option ℝ) (inDays : Bool) (interpFactory : Option InterpKind),
      cacheGet st.variabilityLcCache filename = some entry →
      applyStdPeriodic fs evalS expmjd filename toff inPeriod inDays interpFactory st =
        .ok ⟨stdMagoff evalS entry.splines entry.period (expmjd.map (fun e => e - toff)),
             st, false⟩ := by
    intro expmjd toff st entry inPeriod inDays interpFactory h
    simp [applyStdPeriodic, h]
  have store : ∀ (expmjd : List ℝ) (toff : ℝ) (st : VarState) (lc : LightCurve)
      (inPeriod : Option ℝ) (inDays : Bool) (interpFactory : Option InterpKind)
      (r : StdResult),
      st.variabilityCache = true →
      cacheGet st.variabilityLcCache filename = none →
      fs filename = some lc →
      applyStdPeriodic fs evalS expmjd filename toff inPeriod inDays interpFactory st = .ok r →
      r.didRead = true ∧
      ∃ period : ℝ,
        cacheGet r.state.variabilityLcCache filename =
          some ⟨buildSplines (interpFactory.getD .interp1d)
                  (if inDays then lc.times.map (fun t => t / period) else lc.times) lc,
                period⟩ := by
    intro expmjd toff st lc inPeriod inDays interpFactory r hc hmiss hfs h
    match inPeriod with
    | some p =>
        simp only [applyStdPeriodic, hmiss, hfs, hc, Except.bind, if_true] at h
        obtain rfl := Except.ok.inj h
        exact ⟨rfl, p, by simp [cacheGet]⟩
    | none =>
        by_cases hl : lc.times.length < 2
        · simp [applyStdPeriodic, hmiss, hfs, hl, Except.bind] at h
        · simp only [applyStdPeriodic, hmiss, hfs, hl, hc, if_false, Except.bind,
            if_true] at h
          obtain rfl := Except.ok.inj h
          exact ⟨rfl, inferPeriod lc.times, by simp [cacheGet]⟩
  refine ⟨hit, store, ?_, ?_⟩
  · intro expmjd toff st inPeriod inDays interpFactory r hc h
    match hcg : cacheGet st.variabilityLcCache filename with
    | some entry =>
        rw [hit expmjd toff st entry inPeriod inDays interpFactory hcg] at h
        obtain rfl := Except.ok.inj h
        exact ⟨rfl, fun hmiss => by cases hmiss⟩
    | none =>
        match hfs : fs filename with
        | none => simp [applyStdPeriodic, hcg, hfs] at h
        | some lc =>
            match inPeriod with
            | some p =>
                simp only [applyStdPeriodic, hcg, hfs, hc, Except.bind] at h
                obtain rfl := Except.ok.inj h
                exact ⟨by simp [hc], fun _ => rfl⟩
            | none =>
                by_cases hl : lc.times.length < 2
                · simp [applyStdPeriodic, hcg, hfs, hl, Except.bind] at h
                · simp only [applyStdPeriodic, hcg, hfs, hl, hc, if_false,
                    Except.bind] at h
                  obtain rfl := Except.ok.inj h
                  exact ⟨by simp [hc], fun _ => rfl⟩
  · intro expmjd toff st lc inP1 inD1 k1 inP2 inD2 k2 r1 hc hmiss hfs h1
    rcases store expmjd toff st lc inP1 inD1 k1 r1 hc hmiss hfs h1 with ⟨_, period, hstore⟩
    refine ⟨⟨buildSplines (k1.getD .interp1d)
        (if inD1 then lc.times.map (fun t => t / period) else lc.times) lc, period⟩,
      hstore, rfl, ?_⟩
    exact hit expmjd toff r1.state _ inP2 inD2 k2 hstore

/-- Witness for the cache-behaviour theorem: a concrete cache hit (with a
period override, no normalization and a different interpolator kind, all
ignored) and a concrete caching-disabled call that reads the file and
leaves the state unchanged. -/
theorem applyStdPeriodic_cacheBehaviour_witness :
    (applyStdPeriodic exFs phaseEval [2] "lc.dat" 0 (some 7) false
        (some .iuSpline) exHitState =
      .ok ⟨stdMagoff phaseEval exEntry.splines exEntry.period
             ([2].map (fun e => e - 0)), exHitState, false⟩) ∧
    ((⟨stdMagoff phaseEval
          (buildSplines .interp1d
            (exLc.times.map (fun t => t / inferPeriod exLc.times)) exLc)
          (inferPeriod exLc.times) ([2].map (fun e => e - 0)),
        initState false, true⟩ : StdResult).state = initState false ∧
      (cacheGet (initState false).variabilityLcCache "lc.dat" = none →
        (⟨stdMagoff phaseEval
            (buildSplines .interp1d
              (exLc.times.map (fun t => t / inferPeriod exLc.times)) exLc)
            (inferPeriod exLc.times) ([2].map (fun e => e - 0)),
          initState false, true⟩ : StdResult).didRead = true)) := by
  constructor
  · exact (applyStdPeriodic_cacheBehaviour exFs phaseEval "lc.dat").1 [2] 0
      exHitState exEntry (some 7) false (some .iuSpline) (by simp [exHitState, cacheGet])
  · refine (applyStdPeriodic_cacheBehaviour exFs phaseEval "lc.dat").2.2.1 [2] 0
      (initState false) none true none _ rfl ?_
    have hmiss : cacheGet (initState false).variabilityLcCache "lc.dat" = none := rfl
    have hfs : exFs "lc.dat" = some exLc := by simp [exFs]
    simp only [applyStdPeriodic, hmiss, hfs]
    have hnot : ¬ exLc.times.length < 2 := by norm_num [exLc]
    simp [hnot, Except.bind, initState]

/-! ### C4: phase folding -/

/-- C4: for a nonzero period, the folded phase is
`epoch/period - floor(epoch/period)`, always lies in [0, 1) (negative
epochs included), is invariant under shifting the epoch by any integer
multiple of the period, and consequently the periodic-recipe output
(both the shared magoff computation and a cached applyStdPeriodic call)
is identical at `epoch` and `epoch + k*period`. -/
theorem stdPeriodic_phaseFolding (period : ℝ) (hp : period ≠ 0) :
    (∀ e : ℝ, foldPhase e period = e / period - ⌊e / period⌋) ∧
    (∀ e : ℝ, 0 ≤ foldPhase e period ∧ foldPhase e period < 1) ∧
    (∀ (e : ℝ) (k : ℤ), foldPhase (e + k * period) period = foldPhase e period) ∧
    (∀ (evalS : Spline → ℝ → ℝ) (splines : Band → Spline) (epoch : List ℝ) (k : ℤ),
      stdMagoff evalS splines period (epoch.map (fun e => e + k * period)) =
        stdMagoff evalS splines period epoch) ∧
    (∀ (fs : String → Option LightCurve) (evalS : Spline → ℝ → ℝ)
        (expmjd : List ℝ) (filename : String) (toff : ℝ) (inPeriod : Option ℝ)
        (inDays : Bool) (interpFactory : Option InterpKind) (st : VarState)
        (entry : CacheEntry) (k : ℤ),
      cacheGet st.variabilityLcCache filename = some entry →
      entry.period = period →
      applyStdPeriodic fs evalS (expmjd.map (fun t => t + k * period)) filename
          toff inPeriod inDays interpFactory st =
        applyStdPeriodic fs evalS expmjd filename toff inPeriod inDays
          interpFactory st) := by
  have hfract : ∀ e : ℝ, foldPhase e period = Int.fract (e / period) := by
    intro e; rfl
  have hshift : ∀ (e : ℝ) (k : ℤ), foldPhase (e + k * period) period = foldPhase e period := by
    intro e k
    rw [hfract, hfract]
    have : (e + k * period) / period = e / period + k := by
      field_simp
    rw [this, Int.fract_add_int]
  have hmag : ∀ (evalS : Spline → ℝ → ℝ) (splines : Band → Spline)
      (epoch : List ℝ) (k : ℤ),
      stdMagoff evalS splines period (epoch.map (fun e => e + k * period)) =
        stdMagoff evalS splines period epoch := by
    intro evalS splines epoch k
    unfold stdMagoff
    congr 1
    funext b
    congr 1
    rw [List.map_map]
    refine List.map_congr_left ?_
    intro e _
    simp only [Function.comp]
    rw [hshift e k]
  refine ⟨fun e => rfl, ?_, hshift, hmag, ?_⟩
  · intro e
    exact ⟨by rw [hfract]; exact Int.fract_nonneg _,
           by rw [hfract]; exact Int.fract_lt_one _⟩
  · intro fs evalS expmjd filename toff inPeriod inDays interpFactory st entry k hcg hper
    simp only [applyStdPeriodic, hcg]
    have hmap : (expmjd.map (fun t => t + k * period)).map (fun e => e - toff) =
        (expmjd.map (fun e => e - toff)).map (fun e => e + k * period) := by
      rw [List.map_map, List.map_map]
      refine List.map_congr_left ?_
      intro t _
      simp only [Function.comp]
      ring
    rw [hmap, hper, hmag]

/-- Witness for the phase-folding theorem with period 4, epoch 2.5, k = 3. -/
theorem stdPeriodic_phaseFolding_witness :
    (0 ≤ foldPhase 2.5 4 ∧ foldPhase 2.5 4 < 1) ∧
    foldPhase (2.5 + ((3 : ℤ) : ℝ) * 4) 4 = foldPhase 2.5 4 ∧
    applyStdPeriodic exFs phaseEval ([2].map (fun t => t + ((3 : ℤ) : ℝ) * 4))
        "lc.dat" 0 none true none exHitState =
      applyStdPeriodic exFs phaseEval [2] "lc.dat" 0 none true none exHitState := by
  have h := stdPeriodic_phaseFolding 4 (by norm_num)
  exact ⟨h.2.1 2.5, h.2.2.1 2.5 3,
    h.2.2.2.2 exFs phaseEval [2] "lc.dat" 0 none true none exHitState exEntry 3
      (by simp [exHitState, cacheGet]) (by simp [exEntry])⟩

/-! ### C3: determinism of applyAgn -/

theorem bandGet_allBands_map (f : Band → List ℝ) (b : Band) :
    bandGet (allBands.map (fun b2 => (b2, f b2))) b = some (f b) := by
  cases b <;> simp [allBands, bandGet]

/-- C3: applyAgn is deterministic.  The only randomness consumed is the
block of `nbins` standard-normal draws produced by the generator seeded
with `seed`: any two generators that agree on that one block (in
particular, two runs of the seeded numpy generator) give identical output
for identical `(seed, tau, t0, sfint, epochs)`; and the same draw block is
shared by all six bands, so bands with equal sfint amplitude get
identical arrays. -/
theorem applyAgn_deterministic (g1 g2 : ℤ → ℕ → ℕ → ℝ) (expmjd : List ℝ)
    (p : AgnParams)
    (hg : g1 p.seed (agnNbins expmjd p) = g2 p.seed (agnNbins expmjd p)) :
    applyAgn g1 expmjd p = applyAgn g2 expmjd p ∧
    (∀ r : List (Band × List ℝ), applyAgn g1 expmjd p = .ok r →
      ∀ b b2 : Band, p.sfint b = p.sfint b2 → bandGet r b = bandGet r b2) := by
  constructor
  · simp only [applyAgn, hg]
  · intro r hr b b2 hsf
    simp only [applyAgn] at hr
    split_ifs at hr
    obtain rfl := Except.ok.inj hr
    rw [bandGet_allBands_map, bandGet_allBands_map, hsf]

/-- Witness: two syntactically distinct generators agreeing on the seeded
draw block give identical applyAgn output. -/
theorem applyAgn_deterministic_witness :
    applyAgn zeroDraws [6] exAgnP = applyAgn zeroDraws2 [6] exAgnP := by
  exact (applyAgn_deterministic zeroDraws zeroDraws2 [6] exAgnP rfl).1

/-! ### C5: error behaviour of applyAgn -/

theorem linspace_length (a b : ℝ) (n : ℕ) : (linspace a b n).length = n := by
  match n with
  | 0 => rfl
  | 1 => rfl
  | n + 2 =>
      show ((List.range (n + 2)).map (fun (i : ℕ) => a + (b - a) * i / (n + 1))).length = n + 2
      rw [List.length_map, List.length_range]

/-- C5 counterexample: with every observation epoch equal to `t0`
(epochs = [5], t0 = 5, tau = 100 > 0) applyAgn neither returns normally
nor raises the invalid-parameters error: `nbins` evaluates to 0, the
float division `endepoch/nbins` only warns (nan bin width), and the call
fails at interp1d construction over the one-point simulation grid with
scipy's ValueError.  This refutes the claim that the call returns
normally whenever all epochs are at or after t0. -/
theorem applyAgn_allEpochsAtT0_counterexample :
    applyAgn zeroDraws [5] exAgnP = .error .valueError ∧
    VarErr.valueError ≠ VarErr.invalidParameters := by
  constructor
  · have h5 : (5 : ℝ) - 5 = 0 := by norm_num
    simp only [applyAgn, exAgnP, List.map_cons, List.map_nil, h5]
    norm_num [listMin, listMax, agnNbinsZ, agnNbins, linspace]
  · decide

/-- C5 amended: for a nonempty epoch array and positive `tau`, applyAgn
raises the invalid-parameters error exactly when some epoch precedes t0;
it returns normally when all epochs are at or after t0 AND at least one
epoch is strictly after t0; and when every epoch equals t0 the bin count
is 0 and — the float division by zero merely warning — the call fails
with scipy interp1d's ValueError (a one-point grid), not with a normal
return and not with InvalidParameters. -/
theorem applyAgn_errorConditions (g : ℤ → ℕ → ℕ → ℝ) (expmjd : List ℝ)
    (p : AgnParams) (hne : expmjd ≠ []) (htau : 0 < p.tau) :
    ((∃ e ∈ expmjd, e < p.t0) → applyAgn g expmjd p = .error .invalidParameters) ∧
    ((∀ e ∈ expmjd, p.t0 ≤ e) → (∃ e ∈ expmjd, p.t0 < e) →
      exceptOk (applyAgn g expmjd p) = true) ∧
    ((∀ e ∈ expmjd, e = p.t0) → applyAgn g expmjd p = .error .valueError) := by
  have hdt0 : ¬ p.tau / 100 = 0 := by positivity
  refine ⟨?_, ?_, ?_⟩
  · rintro ⟨e, he, helt⟩
    have hmem : e - p.t0 ∈ expmjd.map (fun e2 => e2 - p.t0) :=
      List.mem_map_of_mem _ he
    have hmin : listMin (expmjd.map (fun e2 => e2 - p.t0)) < 0 :=
      lt_of_le_of_lt (listMin_le_of_mem hmem) (by linarith)
    simp only [applyAgn, if_neg hne, if_pos hmin]
  · intro hall ⟨e, he, hegt⟩
    have hmapne : expmjd.map (fun e2 => e2 - p.t0) ≠ [] := by
      simpa using hne
    have hmin : ¬ listMin (expmjd.map (fun e2 => e2 - p.t0)) < 0 := by
      rcases List.mem_map.mp (listMin_mem hmapne) with ⟨e2, he2, heq⟩
      have := hall e2 he2
      rw [← heq]
      simp only [not_lt]
      linarith
    have hend : 0 < listMax (expmjd.map (fun e2 => e2 - p.t0)) := by
      have hmem : e - p.t0 ∈ expmjd.map (fun e2 => e2 - p.t0) :=
        List.mem_map_of_mem _ he
      exact lt_of_lt_of_le (by linarith) (le_listMax_of_mem hmem)
    have hq : 0 < listMax (expmjd.map (fun e2 => e2 - p.t0)) / (p.tau / 100) :=
      div_pos hend (by positivity)
    have hceil : 0 < agnNbinsZ expmjd p := by
      unfold agnNbinsZ
      exact Int.ceil_pos.mpr hq
    have hnneg : ¬ agnNbinsZ expmjd p < 0 := by omega
    have hnb1 : 1 ≤ agnNbins expmjd p := by
      unfold agnNbins
      omega
    have hdt : ¬ listMax (expmjd.map (fun e2 => e2 - p.t0)) /
        (agnNbins expmjd p : ℝ) / p.tau < 0 := by
      simp only [not_lt]
      have : (0 : ℝ) ≤ (agnNbins expmjd p : ℝ) := Nat.cast_nonneg _
      positivity
    have hgrid : ¬ (linspace 0 (listMax (expmjd.map (fun e2 => e2 - p.t0)))
        (agnNbins expmjd p + 1)).length < 2 := by
      rw [linspace_length]
      omega
    simp only [applyAgn, if_neg hne, if_neg hmin, if_neg hdt0,
      if_neg hnneg, if_neg hdt, if_neg hgrid, exceptOk]
  · intro hall
    have hzero : ∀ x ∈ expmjd.map (fun e2 => e2 - p.t0), x = 0 := by
      intro x hx
      rcases List.mem_map.mp hx with ⟨e2, he2, heq⟩
      rw [← heq, hall e2 he2]
      ring
    have hmapne : expmjd.map (fun e2 => e2 - p.t0) ≠ [] := by
      simpa using hne
    have hmin : ¬ listMin (expmjd.map (fun e2 => e2 - p.t0)) < 0 := by
      rw [hzero _ (listMin_mem hmapne)]
      norm_num
    have hmax : listMax (expmjd.map (fun e2 => e2 - p.t0)) = 0 :=
      hzero _ (listMax_mem hmapne)
    have hceil : agnNbinsZ expmjd p = 0 := by
      unfold agnNbinsZ
      rw [hmax]
      simp
    have hnneg : ¬ agnNbinsZ expmjd p < 0 := by omega
    have hnb : agnNbins expmjd p = 0 := by
      unfold agnNbins
      rw [hceil]
      rfl
    have hdt : ¬ listMax (expmjd.map (fun e2 => e2 - p.t0)) /
        (agnNbins expmjd p : ℝ) / p.tau < 0 := by
      rw [hmax, hnb]
      norm_num
    have hgrid : (linspace 0 (listMax (expmjd.map (fun e2 => e2 - p.t0)))
        (agnNbins expmjd p + 1)).length < 2 := by
      rw [linspace_length, hnb]
      norm_num
    simp only [applyAgn, if_neg hne, if_neg hmin, if_neg hdt0,
      if_neg hnneg, if_neg hdt, if_pos hgrid]

/-- Witness: with t0 = 5 and tau = 100, the epoch array [4] raises the
invalid-parameters error, [6] returns normally, and [5] fails at interp1d
construction (the scipy ValueError). -/
theorem applyAgn_errorConditions_witness :
    applyAgn zeroDraws [4] exAgnP = .error .invalidParameters ∧
    exceptOk (applyAgn zeroDraws [6] exAgnP) = true ∧
    applyAgn zeroDraws [5] exAgnP = .error .valueError := by
  refine ⟨?_, ?_, ?_⟩
  · exact (applyAgn_errorConditions zeroDraws [4] exAgnP (by simp)
      (by norm_num [exAgnP])).1 ⟨4, by simp, by norm_num [exAgnP]⟩
  · exact (applyAgn_errorConditions zeroDraws [6] exAgnP (by simp)
      (by norm_num [exAgnP])).2.1
      (by intro e he; simp at he; simp [he, exAgnP]; norm_num)
      ⟨6, by simp, by norm_num [exAgnP]⟩
  · exact (applyAgn_errorConditions zeroDraws [5] exAgnP (by simp)
      (by norm_num [exAgnP])).2.2
      (by intro e he; simp at he; simp [he, exAgnP])

/-! ### C8: microlensing symmetry and minimum -/

theorem microU_even (umin that e : ℝ) : microU umin that (-e) = microU umin that e := by
  unfold microU
  have h : (2.0 * -e / that) ^ 2 = (2.0 * e / that) ^ 2 := by ring
  rw [h]

theorem microU_zero (umin that : ℝ) (h : 0 ≤ umin) : microU umin that 0 = umin := by
  unfold microU
  have h0 : (2.0 * (0 : ℝ) / that) ^ 2 = 0 := by
    simp
  rw [h0, add_zero, Real.sqrt_sq h]

theorem microU_le (umin that e : ℝ) (h : 0 ≤ umin) :
    microU umin that 0 ≤ microU umin that e := by
  rw [microU_zero umin that h]
  unfold microU
  have h1 : umin = Real.sqrt (umin ^ 2) := (Real.sqrt_sq h).symm
  rw [h1]
  exact Real.sqrt_le_sqrt (by nlinarith [sq_nonneg (2.0 * e / that), sq_nonneg umin])

theorem microU_pos (umin that e : ℝ) (h : 0 < umin) : 0 < microU umin that e := by
  unfold microU
  exact Real.sqrt_pos.mpr (by nlinarith [sq_nonneg (2.0 * e / that)])

theorem microMagA_pos (u : ℝ) (hu : 0 < u) : 0 < microMagA u := by
  unfold microMagA
  have hs : 0 < Real.sqrt (u ^ 2 + 4.0) := Real.sqrt_pos.mpr (by nlinarith)
  exact div_pos (by nlinarith) (mul_pos hu hs)

theorem microMagB_pos (u : ℝ) (hu : 0 < u) : 0 < microMagB u := by
  unfold microMagB
  have hs : 0 < Real.sqrt (u ^ 2 + 4.0) := Real.sqrt_pos.mpr (by nlinarith)
  exact div_pos (by linarith) (mul_pos hu hs)

theorem microMagA_anti (a b : ℝ) (ha : 0 < a) (hab : a ≤ b) :
    microMagA b ≤ microMagA a := by
  have hb : 0 < b := lt_of_lt_of_le ha hab
  have hsa : 0 < Real.sqrt (a ^ 2 + 4.0) := Real.sqrt_pos.mpr (by nlinarith)
  have hsb : 0 < Real.sqrt (b ^ 2 + 4.0) := Real.sqrt_pos.mpr (by nlinarith)
  have hsa2 : Real.sqrt (a ^ 2 + 4.0) ^ 2 = a ^ 2 + 4.0 :=
    Real.sq_sqrt (by nlinarith)
  have hsb2 : Real.sqrt (b ^ 2 + 4.0) ^ 2 = b ^ 2 + 4.0 :=
    Real.sq_sqrt (by nlinarith)
  unfold microMagA
  rw [div_le_div_iff₀ (mul_pos hb hsb) (mul_pos ha hsa)]
  set X := (b ^ 2 + 2.0) * (a * Real.sqrt (a ^ 2 + 4.0)) with hX
  set Y := (a ^ 2 + 2.0) * (b * Real.sqrt (b ^ 2 + 4.0)) with hY
  have hXpos : 0 < X := by positivity
  have hYpos : 0 < Y := by positivity
  have hX2 : X ^ 2 = (b ^ 2 + 2.0) ^ 2 * a ^ 2 * (a ^ 2 + 4.0) := by
    rw [hX]
    have : ((b ^ 2 + 2.0) * (a * Real.sqrt (a ^ 2 + 4.0))) ^ 2 =
        (b ^ 2 + 2.0) ^ 2 * a ^ 2 * Real.sqrt (a ^ 2 + 4.0) ^ 2 := by ring
    rw [this, hsa2]
  have hY2 : Y ^ 2 = (a ^ 2 + 2.0) ^ 2 * b ^ 2 * (b ^ 2 + 4.0) := by
    rw [hY]
    have : ((a ^ 2 + 2.0) * (b * Real.sqrt (b ^ 2 + 4.0))) ^ 2 =
        (a ^ 2 + 2.0) ^ 2 * b ^ 2 * Real.sqrt (b ^ 2 + 4.0) ^ 2 := by ring
    rw [this, hsb2]
  have hsq : a ^ 2 ≤ b ^ 2 := by nlinarith
  have hkey : X ^ 2 ≤ Y ^ 2 := by
    rw [hX2, hY2]
    have hdiff : (a ^ 2 + 2.0) ^ 2 * b ^ 2 * (b ^ 2 + 4.0) -
        (b ^ 2 + 2.0) ^ 2 * a ^ 2 * (a ^ 2 + 4.0) =
        4 * (b ^ 2 - a ^ 2) * (a ^ 2 + b ^ 2 + 4) := by ring
    nlinarith [sq_nonneg a, sq_nonneg b]
  calc X = Real.sqrt (X ^ 2) := (Real.sqrt_sq hXpos.le).symm
    _ ≤ Real.sqrt (Y ^ 2) := Real.sqrt_le_sqrt hkey
    _ = Y := Real.sqrt_sq hYpos.le

theorem microMagB_anti (a b : ℝ) (ha : 0 < a) (hab : a ≤ b) :
    microMagB b ≤ microMagB a := by
  have hb : 0 < b := lt_of_lt_of_le ha hab
  have hsa : 0 < Real.sqrt (a ^ 2 + 4.0) := Real.sqrt_pos.mpr (by nlinarith)
  have hsb : 0 < Real.sqrt (b ^ 2 + 4.0) := Real.sqrt_pos.mpr (by nlinarith)
  have hsa2 : Real.sqrt (a ^ 2 + 4.0) ^ 2 = a ^ 2 + 4.0 :=
    Real.sq_sqrt (by nlinarith)
  have hsb2 : Real.sqrt (b ^ 2 + 4.0) ^ 2 = b ^ 2 + 4.0 :=
    Real.sq_sqrt (by nlinarith)
  unfold microMagB
  rw [div_le_div_iff₀ (mul_pos hb hsb) (mul_pos ha hsa)]
  set X := (b + 2.0) * (a * Real.sqrt (a ^ 2 + 4.0)) with hX
  set Y := (a + 2.0) * (b * Real.sqrt (b ^ 2 + 4.0)) with hY
  have hXpos : 0 < X := by positivity
  have hYpos : 0 < Y := by positivity
  have hX2 : X ^ 2 = (b + 2.0) ^ 2 * a ^ 2 * (a ^ 2 + 4.0) := by
    rw [hX]
    have : ((b + 2.0) * (a * Real.sqrt (a ^ 2 + 4.0))) ^ 2 =
        (b + 2.0) ^ 2 * a ^ 2 * Real.sqrt (a ^ 2 + 4.0) ^ 2 := by ring
    rw [this, hsa2]
  have hY2 : Y ^ 2 = (a + 2.0) ^ 2 * b ^ 2 * (b ^ 2 + 4.0) := by
    rw [hY]
    have : ((a + 2.0) * (b * Real.sqrt (b ^ 2 + 4.0))) ^ 2 =
        (a + 2.0) ^ 2 * b ^ 2 * Real.sqrt (b ^ 2 + 4.0) ^ 2 := by ring
    rw [this, hsb2]
  have hkey : X ^ 2 ≤ Y ^ 2 := by
    rw [hX2, hY2]
    have h2 : a ^ 2 ≤ b ^ 2 := by nlinarith
    have h3 : a ^ 3 ≤ b ^ 3 := by nlinarith
    have h4 : a ^ 4 ≤ b ^ 4 := by nlinarith
    have hdiff : (a + 2.0) ^ 2 * b ^ 2 * (b ^ 2 + 4.0) -
        (b + 2.0) ^ 2 * a ^ 2 * (a ^ 2 + 4.0) =
        a ^ 2 * b ^ 2 * (b ^ 2 - a ^ 2) + 4 * (a * b) * (b ^ 3 - a ^ 3) +
        4 * (b ^ 4 - a ^ 4) + 16 * (b ^ 2 - a ^ 2) + 16 * (a * b) * (b - a) := by
      ring
    have e1 : 0 ≤ a ^ 2 * b ^ 2 * (b ^ 2 - a ^ 2) :=
      mul_nonneg (by positivity) (by linarith)
    have e2 : 0 ≤ 4 * (a * b) * (b ^ 3 - a ^ 3) :=
      mul_nonneg (by positivity) (by linarith)
    have e3 : 0 ≤ 4 * (b ^ 4 - a ^ 4) := by linarith
    have e4 : 0 ≤ 16 * (b ^ 2 - a ^ 2) := by linarith
    have e5 : 0 ≤ 16 * (a * b) * (b - a) :=
      mul_nonneg (by positivity) (by linarith)
    linarith
  calc X = Real.sqrt (X ^ 2) := (Real.sqrt_sq hXpos.le).symm
    _ ≤ Real.sqrt (Y ^ 2) := Real.sqrt_le_sqrt hkey
    _ = Y := Real.sqrt_sq hYpos.le

/-- C8: for both microlensing evaluators, with `umin` and `that` fixed:
the output is symmetric about t0 (evaluating the whole epoch list
reflected about t0 gives identical results in every band); the impact
parameter u is minimized at t = t0 where it equals umin; and for
0 < umin the magnitude offset is smallest (most negative, i.e. brightest)
at t = t0 in both parameterizations. -/
theorem microlens_symmetric_brightest (t0 umin that : ℝ) :
    (∀ expmjd : List ℝ,
      applyMicrolens (expmjd.map (fun d => t0 + d)) t0 umin that =
        applyMicrolens (expmjd.map (fun d => t0 - d)) t0 umin that) ∧
    (∀ expmjd : List ℝ,
      applyMicrolensing (expmjd.map (fun d => t0 + d)) t0 umin that =
        applyMicrolensing (expmjd.map (fun d => t0 - d)) t0 umin that) ∧
    (0 ≤ umin → ∀ e : ℝ,
      microU umin that 0 = umin ∧ microU umin that 0 ≤ microU umin that e) ∧
    (0 < umin → ∀ e : ℝ,
      microDmagA umin that 0 ≤ microDmagA umin that e ∧
      microDmagB umin that 0 ≤ microDmagB umin that e) := by
  have heven : ∀ f : ℝ → ℝ, (∀ x, f (-x) = f x) →
      ∀ expmjd : List ℝ,
      ((expmjd.map (fun d => t0 + d)).map (fun t => t - t0)).map f =
        ((expmjd.map (fun d => t0 - d)).map (fun t => t - t0)).map f := by
    intro f hf expmjd
    rw [List.map_map, List.map_map, List.map_map, List.map_map]
    refine List.map_congr_left ?_
    intro d _
    simp only [Function.comp]
    have h1 : t0 + d - t0 = d := by ring
    have h2 : t0 - d - t0 = -d := by ring
    rw [h1, h2, hf d]
  have hevenA : ∀ x : ℝ, microDmagA umin that (-x) = microDmagA umin that x := by
    intro x
    unfold microDmagA
    rw [microU_even]
  have hevenB : ∀ x : ℝ, microDmagB umin that (-x) = microDmagB umin that x := by
    intro x
    unfold microDmagB
    rw [microU_even]
  refine ⟨?_, ?_, ?_, ?_⟩
  · intro expmjd
    simp only [applyMicrolens]
    rw [heven (fun e => microDmagA umin that e) hevenA expmjd]
  · intro expmjd
    simp only [applyMicrolensing]
    rw [heven (fun e => microDmagB umin that e) hevenB expmjd]
  · intro h e
    exact ⟨microU_zero umin that h, microU_le umin that e h⟩
  · intro h e
    have hu0 : 0 < microU umin that 0 := microU_pos umin that 0 h
    have hle : microU umin that 0 ≤ microU umin that e := microU_le umin that e h.le
    constructor
    · unfold microDmagA
      have hmag : microMagA (microU umin that e) ≤ microMagA (microU umin that 0) :=
        microMagA_anti _ _ hu0 hle
      have hpos : 0 < microMagA (microU umin that e) :=
        microMagA_pos _ (microU_pos umin that e h)
      have hlog : logb 10 (microMagA (microU umin that e)) ≤
          logb 10 (microMagA (microU umin that 0)) :=
        Real.logb_le_logb_of_le (by norm_num) hpos hmag
      nlinarith
    · unfold microDmagB
      have hmag : microMagB (microU umin that e) ≤ microMagB (microU umin that 0) :=
        microMagB_anti _ _ hu0 hle
      have hpos : 0 < microMagB (microU umin that e) :=
        microMagB_pos _ (microU_pos umin that e h)
      have hlog : logb 10 (microMagB (microU umin that e)) ≤
          logb 10 (microMagB (microU umin that 0)) :=
        Real.logb_le_logb_of_le (by norm_num) hpos hmag
      nlinarith

/-- Witness for the microlensing theorem at t0 = 3, umin = 1, that = 1,
offset 2. -/
theorem microlens_symmetric_brightest_witness :
    applyMicrolens ([1].map (fun d => 3 + d)) 3 1 1 =
      applyMicrolens ([1].map (fun d => 3 - d)) 3 1 1 ∧
    applyMicrolensing ([1].map (fun d => 3 + d)) 3 1 1 =
      applyMicrolensing ([1].map (fun d => 3 - d)) 3 1 1 ∧
    (microU 1 1 0 = 1 ∧ microU 1 1 0 ≤ microU 1 1 2) ∧
    (microDmagA 1 1 0 ≤ microDmagA 1 1 2 ∧
     microDmagB 1 1 0 ≤ microDmagB 1 1 2) := by
  obtain ⟨h1, h2, h3, h4⟩ := microlens_symmetric_brightest 3 1 1
  exact ⟨h1 [1], h2 [1], h3 (by norm_num) 2, h4 (by norm_num) 2⟩

/-! ### C7: black-hole microlensing boundary behaviour -/

/-- C7: applyBHMicrolens never raises on out-of-domain epochs.  Given a
readable template with at least two samples, the call returns normally
and every band maps each epoch strictly before the rescaled minimum age
or strictly after the maximum age to offset exactly 0 (magnification
exactly 1), while in-domain epochs get `-2.5 * ln(splineValue)` — the
natural-logarithm convention. -/
theorem applyBHMicrolens_boundary (fs : String → Option LightCurve)
    (bhEval : List ℝ → List ℝ → ℝ → ℝ) (expmjd : List ℝ) (filename : String)
    (t0 : ℝ) (lc : LightCurve)
    (hfs : fs filename = some lc) (hlen : 2 ≤ lc.times.length) :
    applyBHMicrolens fs bhEval expmjd filename t0 =
      .ok (allBands.map (fun b => (b,
        (expmjd.map (fun e => e - t0)).map (fun ep =>
          if ep < (lc.times.map (fun t => t * 365)).getD 0 0 ∨
              ep > lastD (lc.times.map (fun t => t * 365))
          then 0
          else -2.5 * Real.log
            (bhEval (lc.times.map (fun t => t * 365)) (lc.flux .u) ep))))) ∧
    (-2.5 * Real.log 1 = 0) := by
  constructor
  · have hnot : ¬ lc.times.length < 2 := by omega
    simp only [applyBHMicrolens, hfs, hnot, if_false]
    congr 1
    refine List.map_congr_left ?_
    intro b _
    congr 1
    rw [List.map_map]
    refine List.map_congr_left ?_
    intro ep _
    simp only [Function.comp]
    split_ifs with h
    · simp [Real.log_one]
    · rfl
  · simp [Real.log_one]

/-- Witness for the black-hole microlensing theorem: template ages 0 and
1 year (0 and 365 days), epochs 100 (in domain) and 400 (out of domain). -/
theorem applyBHMicrolens_boundary_witness :
    applyBHMicrolens bhFs twoEval [400, 100] "bh.dat" 0 =
      .ok (allBands.map (fun b => (b,
        ([400, 100].map (fun e => e - (0 : ℝ))).map (fun ep =>
          if ep < (bhLc.times.map (fun t => t * 365)).getD 0 0 ∨
              ep > lastD (bhLc.times.map (fun t => t * 365))
          then 0
          else -2.5 * Real.log
            (twoEval (bhLc.times.map (fun t => t * 365)) (bhLc.flux .u) ep))))) ∧
    (-2.5 * Real.log 1 = 0) := by
  exact applyBHMicrolens_boundary bhFs twoEval [400, 100] "bh.dat" 0 bhLc
    (by simp [bhFs]) (by norm_num [bhLc])

/-! ### C6 and C10: the AM CVn burst model -/

theorem foldl_sub_le {α : Type} (c : α → ℝ) :
    ∀ (l : List α) (init : ℝ), (∀ a ∈ l, 0 ≤ c a) →
      l.foldl (fun acc a => acc - c a) init ≤ init := by
  intro l
  induction l with
  | nil => intro init _; exact le_refl _
  | cons b l ih =>
      intro init hc
      have h1 := ih (init - c b) (fun a ha => hc a (List.mem_cons_of_mem _ ha))
      have h2 : 0 ≤ c b := hc b (List.mem_cons_self _ _)
      calc (b :: l).foldl (fun acc a => acc - c a) init
          = l.foldl (fun acc a => acc - c a) (init - c b) := rfl
        _ ≤ init - c b := h1
        _ ≤ init := by linarith

theorem foldl_sub_le_mem {α : Type} (c : α → ℝ) :
    ∀ (l : List α) (init : ℝ), (∀ a ∈ l, 0 ≤ c a) →
      ∀ a0 ∈ l, l.foldl (fun acc a => acc - c a) init ≤ init - c a0 := by
  intro l
  induction l with
  | nil => intro init _ a0 h; cases h
  | cons b l ih =>
      intro init hc a0 h0
      have hcl : ∀ a ∈ l, 0 ≤ c a := fun a ha => hc a (List.mem_cons_of_mem _ ha)
      have h2 : 0 ≤ c b := hc b (List.mem_cons_self _ _)
      rcases List.mem_cons.mp h0 with h3 | h3
      · subst h3
        exact foldl_sub_le c l (init - c a0) hcl
      · have h4 := ih (init - c b) hcl a0 h3
        calc (b :: l).foldl (fun acc a => acc - c a) init
            = l.foldl (fun acc a => acc - c a) (init - c b) := rfl
          _ ≤ init - c b - c a0 := h4
          _ ≤ init - c a0 := by linarith

/-- C6 counterexample: concrete bursting parameters (a single burst
center at 3652.5, observed at epoch 4000, unit burst amplitude and unit
color excess, zero baseline amplitude).  The i band receives exactly the
plain burst contribution — identical to the z and y bands — while r still
receives a nonzero color excess: it is NOT the case that exactly the two
reddest bands lack the color excess; i lacks it too. -/
theorem applyAmcvn_threeBandsNoExcess_counterexample :
    applyAmcvn [4000] exAmcvnP =
      .ok [(.u, [-(Real.exp (-347.5) / Real.exp (-1)) + 2]),
           (.g, [-(Real.exp (-347.5) / Real.exp (-1)) + 1]),
           (.r, [-(Real.exp (-347.5) / Real.exp (-1)) + 1 / 2]),
           (.i, [-(Real.exp (-347.5) / Real.exp (-1))]),
           (.z, [-(Real.exp (-347.5) / Real.exp (-1))]),
           (.y, [-(Real.exp (-347.5) / Real.exp (-1))])] ∧
    -(Real.exp (-347.5) / Real.exp (-1)) + 1 / 2 ≠
      -(Real.exp (-347.5) / Real.exp (-1)) := by
  have hcenters : burstCenters exAmcvnP = [3652.5] := by
    unfold burstCenters exAmcvnP linspace
    norm_num
  have harg : -((4000 : ℝ) - 3652.5) / 1 = -347.5 := by norm_num
  have htmp : Real.exp (-((4000 : ℝ) - 3652.5) / 1) / Real.exp (-1) < 1.0 := by
    have h10 : (1.0 : ℝ) = 1 := by norm_num
    rw [h10, harg, div_lt_one (Real.exp_pos _)]
    exact Real.exp_lt_exp.mpr (by norm_num)
  have hadds : amcvnAdds [4000] exAmcvnP = [-(Real.exp (-347.5) / Real.exp (-1))] := by
    unfold amcvnAdds
    rw [hcenters]
    simp only [List.map_cons, List.map_nil, List.foldl_cons, List.foldl_nil, exAmcvnP]
    rw [if_pos htmp, harg]
    norm_num
  have hpos : 0 < Real.exp (-347.5) / Real.exp (-1) :=
    div_pos (Real.exp_pos _) (Real.exp_pos _)
  have ha : -(Real.exp (-347.5) / Real.exp (-1)) ≠ 0 :=
    neg_ne_zero.mpr (ne_of_gt hpos)
  have hbase : amcvnBase [4000] exAmcvnP = [0] := by
    unfold amcvnBase exAmcvnP
    simp
  have hburst : exAmcvnP.does_burst = true := rfl
  have hce : exAmcvnP.color_excess_during_burst = 1 := rfl
  constructor
  · simp only [applyAmcvn, hburst, if_true, hce]
    rw [hbase, hadds]
    simp only [listMin, List.foldl_nil, List.zipWith]
    have hdiv : ∀ w : ℝ, w * 1 * -(Real.exp (-347.5) / Real.exp (-1)) /
        -(Real.exp (-347.5) / Real.exp (-1)) = w := by
      intro w
      rw [mul_div_assoc, div_self ha, mul_one, mul_one]
    simp only [hdiv]
    norm_num
  · intro h
    have h2 : (1 : ℝ) / 2 = 0 := by linarith
    norm_num at h2

/-- C6 amended: with bursting enabled, every band's output decomposes as
baseline + burst + weight·colorExcess·adds/min(adds) with per-band
weights 2.0 (u), 1.0 (g), 0.5 (r), 0 (i), 0 (z), 0 (y): the weights are
weakly decreasing from bluest to reddest, and exactly the three reddest
bands (i, z and y — not two) have zero weight, i.e. receive no color
excess. -/
theorem applyAmcvn_colorExcessWeights (expmjd : List ℝ) (p : AmcvnParams)
    (hb : p.does_burst = true) (hne : expmjd ≠ []) :
    applyAmcvn expmjd p =
      .ok (allBands.map (fun b => (b,
        List.zipWith (fun base a => base +
            (a + amcvnWeight b * p.color_excess_during_burst * a /
              listMin (amcvnAdds expmjd p)))
          (amcvnBase expmjd p) (amcvnAdds expmjd p)))) ∧
    (∀ b b2 : Band, bandIndex b ≤ bandIndex b2 → amcvnWeight b2 ≤ amcvnWeight b) ∧
    (∀ b : Band, amcvnWeight b = 0 ↔ (b = .i ∨ b = .z ∨ b = .y)) := by
  refine ⟨?_, ?_, ?_⟩
  · simp only [applyAmcvn, hb, if_true, if_neg hne, allBands, List.map_cons,
      List.map_nil, amcvnWeight]
    simp only [zero_mul, zero_div, add_zero]
  · intro b b2
    cases b <;> cases b2 <;> simp [bandIndex, amcvnWeight] <;> norm_num
  · intro b
    cases b <;> simp [amcvnWeight] <;> norm_num

/-- Witness for the amended AM CVn theorem at the concrete burst input. -/
theorem applyAmcvn_colorExcessWeights_witness :
    applyAmcvn [4000] exAmcvnP =
      .ok (allBands.map (fun b => (b,
        List.zipWith (fun base a => base +
            (a + amcvnWeight b * exAmcvnP.color_excess_during_burst * a /
              listMin (amcvnAdds [4000] exAmcvnP)))
          (amcvnBase [4000] exAmcvnP) (amcvnAdds [4000] exAmcvnP)))) ∧
    amcvnWeight .r ≤ amcvnWeight .g ∧
    (amcvnWeight .i = 0 ↔ (Band.i = .i ∨ Band.i = .z ∨ Band.i = .y)) := by
  obtain ⟨h1, h2, h3⟩ := applyAmcvn_colorExcessWeights [4000] exAmcvnP rfl (by simp)
  exact ⟨h1, h2 .g .r (by norm_num [bandIndex]), h3 .i⟩

/-- C10 counterexample: at epoch 3600, 52.5 days before the single burst
center at 3652.5 (unit burst scale), the decay factor is
`tmp = exp(52.5)/exp(-1)` — about 1.7e23, comfortably finite in float64,
so the code computes `amp_burst * tmp * (tmp < 1) = tmp * 0 = 0.0`
exactly, with no overflow involved.  The burst-contribution array is
therefore identically zero and its minimum is 0, not nonzero — the
color-excess terms then divide zero by zero. -/
theorem amcvnAdds_zeroMin_counterexample :
    amcvnAdds [3600] exAmcvnP = [0] ∧
    listMin (amcvnAdds [3600] exAmcvnP) = 0 := by
  have hcenters : burstCenters exAmcvnP = [3652.5] := by
    unfold burstCenters exAmcvnP linspace
    norm_num
  have harg : -((3600 : ℝ) - 3652.5) / 1 = 52.5 := by norm_num
  have htmp : ¬ Real.exp (-((3600 : ℝ) - 3652.5) / 1) / Real.exp (-1) < 1.0 := by
    have h10 : (1.0 : ℝ) = 1 := by norm_num
    rw [h10, harg, not_lt, le_div_iff₀ (Real.exp_pos _), one_mul]
    exact (Real.exp_le_exp.mpr (by norm_num))
  have hadds : amcvnAdds [3600] exAmcvnP = [0] := by
    unfold amcvnAdds
    rw [hcenters]
    simp only [List.map_cons, List.map_nil, List.foldl_cons, List.foldl_nil, exAmcvnP]
    rw [if_neg htmp]
    norm_num
  exact ⟨hadds, by rw [hadds]; rfl⟩

/-- C10 amended, restricted to the regime where the source's float64
exponentials stay finite (`hsafe`: every decay exponent is at most 708,
one below the float64 exp overflow threshold of about 709.78, the margin
covering the subsequent division by exp(-1); outside that regime the code
produces nan entries where the real model produces 0): there, the array
entries are nonpositive, and the minimum is strictly negative (so the
division `adds/min(adds)` is well defined) under the extra assumption
that some requested epoch gets a contribution from some burst center
(its decay factor `tmp` is below 1). -/
theorem amcvnAdds_negativeMin (expmjd : List ℝ) (p : AmcvnParams)
    (hamp : 0 < p.amp_burst)
    (hsafe : ∀ e2 ∈ expmjd, ∀ o2 ∈ burstCenters p,
      -(e2 - o2) / p.burst_scale ≤ 708)
    (e : ℝ) (he : e ∈ expmjd) (o : ℝ) (ho : o ∈ burstCenters p)
    (hcontrib : Real.exp (-(e - o) / p.burst_scale) / Real.exp (-1) < 1.0) :
    listMin (amcvnAdds expmjd p) < 0 ∧
    (∀ x ∈ amcvnAdds expmjd p, x ≤ 0) := by
  have hterm : ∀ (e2 o2 : ℝ), 0 ≤ p.amp_burst *
      (Real.exp (-(e2 - o2) / p.burst_scale) / Real.exp (-1)) *
      (if Real.exp (-(e2 - o2) / p.burst_scale) / Real.exp (-1) < 1.0
       then (1 : ℝ) else 0) := by
    intro e2 o2
    have h1 : 0 < Real.exp (-(e2 - o2) / p.burst_scale) / Real.exp (-1) :=
      div_pos (Real.exp_pos _) (Real.exp_pos _)
    split_ifs with h
    · positivity
    · simp
  have hentry : ∀ x ∈ amcvnAdds expmjd p, x ≤ 0 := by
    intro x hx
    rcases List.mem_map.mp hx with ⟨e2, _, heq⟩
    rw [← heq]
    exact foldl_sub_le _ _ 0 (fun o2 _ => hterm e2 o2)
  refine ⟨?_, hentry⟩
  have hc : 0 < p.amp_burst *
      (Real.exp (-(e - o) / p.burst_scale) / Real.exp (-1)) *
      (if Real.exp (-(e - o) / p.burst_scale) / Real.exp (-1) < 1.0
       then (1 : ℝ) else 0) := by
    rw [if_pos hcontrib, mul_one]
    exact mul_pos hamp (div_pos (Real.exp_pos _) (Real.exp_pos _))
  have hval : (burstCenters p).foldl (fun acc o2 =>
      acc - p.amp_burst * (Real.exp (-(e - o2) / p.burst_scale) / Real.exp (-1)) *
        (if Real.exp (-(e - o2) / p.burst_scale) / Real.exp (-1) < 1.0
         then (1 : ℝ) else 0)) 0 < 0 := by
    have := foldl_sub_le_mem
      (fun o2 => p.amp_burst *
        (Real.exp (-(e - o2) / p.burst_scale) / Real.exp (-1)) *
        (if Real.exp (-(e - o2) / p.burst_scale) / Real.exp (-1) < 1.0
         then (1 : ℝ) else 0))
      (burstCenters p) 0 (fun o2 _ => hterm e o2) o ho
    linarith
  have hmem : (burstCenters p).foldl (fun acc o2 =>
      acc - p.amp_burst * (Real.exp (-(e - o2) / p.burst_scale) / Real.exp (-1)) *
        (if Real.exp (-(e - o2) / p.burst_scale) / Real.exp (-1) < 1.0
         then (1 : ℝ) else 0)) 0 ∈ amcvnAdds expmjd p := by
    unfold amcvnAdds
    exact List.mem_map_of_mem _ he
  exact lt_of_le_of_lt (listMin_le_of_mem hmem) hval

/-- Witness for the amended burst-minimum theorem at epoch 4000 (decay
exponent -347.5, far inside the overflow-safe regime). -/
theorem amcvnAdds_negativeMin_witness :
    listMin (amcvnAdds [4000] exAmcvnP) < 0 := by
  have hcenters : burstCenters exAmcvnP = [3652.5] := by
    unfold burstCenters exAmcvnP linspace
    norm_num
  have hbs : exAmcvnP.burst_scale = 1 := rfl
  refine (amcvnAdds_negativeMin [4000] exAmcvnP (by norm_num [exAmcvnP])
    ?_ 4000 (by simp) 3652.5 ?_ ?_).1
  · intro e2 he2 o2 ho2
    rw [hcenters] at ho2
    simp only [List.mem_singleton] at he2 ho2
    rw [he2, ho2, hbs]
    norm_num
  · rw [hcenters]
    simp
  · rw [hbs]
    have h10 : (1.0 : ℝ) = 1 := by norm_num
    have harg : -((4000 : ℝ) - 3652.5) / 1 = -347.5 := by norm_num
    rw [h10, harg, div_lt_one (Real.exp_pos _)]
    exact Real.exp_lt_exp.mpr (by norm_num)

/-! ### C9: every evaluator returns all six bands, one value per epoch -/

theorem wellFormed_allBands_map (expmjd : List ℝ) (f : Band → List ℝ)
    (hf : ∀ b, (f b).length = expmjd.length) :
    wellFormed expmjd (allBands.map (fun b => (b, f b))) := by
  constructor
  · rw [List.map_map]
    have hcomp : (Prod.fst ∘ fun b => (b, f b)) = id := by
      funext b
      rfl
    rw [hcomp, List.map_id]
  · intro pr hpr
    rcases List.mem_map.mp hpr with ⟨b, _, heq⟩
    rw [← heq]
    exact hf b

theorem stdMagoff_wellFormed (evalS : Spline → ℝ → ℝ) (splines : Band → Spline)
    (period : ℝ) (expmjd : List ℝ) (toff : ℝ) :
    wellFormed expmjd (stdMagoff evalS splines period (expmjd.map (fun e => e - toff))) := by
  refine wellFormed_allBands_map expmjd _ ?_
  intro b
  simp

theorem applyStdPeriodic_magoff_shape (fs : String → Option LightCurve)
    (evalS : Spline → ℝ → ℝ) (expmjd : List ℝ) (filename : String) (toff : ℝ)
    (inPeriod : Option ℝ) (inDays : Bool) (interpFactory : Option InterpKind)
    (st : VarState) (r : StdResult)
    (h : applyStdPeriodic fs evalS expmjd filename toff inPeriod inDays interpFactory st = .ok r) :
    ∃ (splines : Band → Spline) (period : ℝ),
      r.magoff = stdMagoff evalS splines period (expmjd.map (fun e => e - toff)) := by
  match hcg : cacheGet st.variabilityLcCache filename with
  | some entry =>
      simp only [applyStdPeriodic, hcg] at h
      obtain rfl := Except.ok.inj h
      exact ⟨entry.splines, entry.period, rfl⟩
  | none =>
      match hfs : fs filename with
      | none => simp [applyStdPeriodic, hcg, hfs] at h
      | some lc =>
          match inPeriod with
          | some p =>
              simp only [applyStdPeriodic, hcg, hfs, Except.bind] at h
              obtain rfl := Except.ok.inj h
              exact ⟨_, p, rfl⟩
          | none =>
              by_cases hl : lc.times.length < 2
              · simp [applyStdPeriodic, hcg, hfs, hl, Except.bind] at h
              · simp only [applyStdPeriodic, hcg, hfs, hl, if_false, Except.bind] at h
                obtain rfl := Except.ok.inj h
                exact ⟨_, inferPeriod lc.times, rfl⟩

theorem wellFormed_mapPointwise (expmjd : List ℝ) (mo : List (Band × List ℝ))
    (g : ℝ → ℝ) (h : wellFormed expmjd mo) :
    wellFormed expmjd (mo.map (fun pr => (pr.1, pr.2.map g))) := by
  obtain ⟨hkeys, hlen⟩ := h
  constructor
  · rw [List.map_map, ← hkeys]
    rfl
  · intro pr hpr
    rcases List.mem_map.mp hpr with ⟨pr0, hpr0, heq⟩
    rw [← heq]
    simpa using hlen pr0 hpr0

/-- C9: every model evaluator, on normal return, yields a dictionary with
entries for exactly the six band labels u, g, r, i, z, y, each mapped to
an array with one element per observation epoch.  Stated for all nine
evaluators (the four periodic wrappers, the shared periodic recipe, both
microlensing variants, the AGN walk and the AM CVn and BH-microlens
models). -/
theorem allEvaluators_sixBands :
    (∀ fs evalS expmjd filename toff inPeriod inDays interpFactory st r,
      applyStdPeriodic fs evalS expmjd filename toff inPeriod inDays interpFactory st = .ok r →
      wellFormed expmjd r.magoff) ∧
    (∀ fs evalS expmjd lcfilename t0 length st r,
      applyMflare fs evalS expmjd lcfilename t0 length st = .ok r →
      wellFormed expmjd r.magoff) ∧
    (∀ fs evalS expmjd filename tStartMjd st r,
      applyRRly fs evalS expmjd filename tStartMjd st = .ok r →
      wellFormed expmjd r.magoff) ∧
    (∀ fs evalS expmjd lcfile t0 period st r,
      applyCepheid fs evalS expmjd lcfile t0 period st = .ok r →
      wellFormed expmjd r.magoff) ∧
    (∀ fs evalS expmjd lcfile t0 st r,
      applyEb fs evalS expmjd lcfile t0 st = .ok r →
      wellFormed expmjd r.magoff) ∧
    (∀ expmjd t0 umin that,
      wellFormed expmjd (applyMicrolens expmjd t0 umin that)) ∧
    (∀ g expmjd p r, applyAgn g expmjd p = .ok r → wellFormed expmjd r) ∧
    (∀ expmjd t0 umin that,
      wellFormed expmjd (applyMicrolensing expmjd t0 umin that)) ∧
    (∀ expmjd p r, applyAmcvn expmjd p = .ok r → wellFormed expmjd r) ∧
    (∀ fs bhEval expmjd filename t0 r,
      applyBHMicrolens fs bhEval expmjd filename t0 = .ok r →
      wellFormed expmjd r) := by
  have hstd : ∀ fs evalS expmjd filename toff inPeriod inDays interpFactory st r,
      applyStdPeriodic fs evalS expmjd filename toff inPeriod inDays interpFactory st = .ok r →
      wellFormed expmjd r.magoff := by
    intro fs evalS expmjd filename toff inPeriod inDays interpFactory st r h
    rcases applyStdPeriodic_magoff_shape fs evalS expmjd filename toff inPeriod
      inDays interpFactory st r h with ⟨splines, period, hshape⟩
    rw [hshape]
    exact stdMagoff_wellFormed evalS splines period expmjd toff
  have hwrapNeg : ∀ fs evalS expmjd lcfilename t0 length st r,
      applyMflare fs evalS expmjd lcfilename t0 length st = .ok r →
      wellFormed expmjd r.magoff := by
    intro fs evalS expmjd lcfilename t0 length st r h
    unfold applyMflare at h
    cases hx : applyStdPeriodic fs evalS expmjd (mflareFilename lcfilename) t0
        (some length) true none st with
    | error e => rw [hx] at h; cases h
    | ok r0 =>
        rw [hx] at h
        obtain rfl := Except.ok.inj h
        exact wellFormed_mapPointwise expmjd r0.magoff _
          (hstd _ _ _ _ _ _ _ _ _ _ hx)
  have hEb : ∀ fs evalS expmjd lcfile t0 st r,
      applyEb fs evalS expmjd lcfile t0 st = .ok r →
      wellFormed expmjd r.magoff := by
    intro fs evalS expmjd lcfile t0 st r h
    unfold applyEb at h
    cases hx : applyStdPeriodic fs evalS expmjd lcfile t0 none true
        (some .iuSpline) st with
    | error e => rw [hx] at h; cases h
    | ok r0 =>
        rw [hx] at h
        obtain rfl := Except.ok.inj h
        exact wellFormed_mapPointwise expmjd r0.magoff _
          (hstd _ _ _ _ _ _ _ _ _ _ hx)
  refine ⟨hstd, hwrapNeg, ?_, ?_, hEb, ?_, ?_, ?_, ?_, ?_⟩
  · intro fs evalS expmjd filename tStartMjd st r h
    exact hstd _ _ _ _ _ _ _ _ _ _ h
  · intro fs evalS expmjd lcfile t0 period st r h
    exact hstd _ _ _ _ _ _ _ _ _ _ h
  · intro expmjd t0 umin that
    refine wellFormed_allBands_map expmjd _ ?_
    intro b
    simp
  · intro g expmjd p r h
    simp only [applyAgn] at h
    split_ifs at h
    obtain rfl := Except.ok.inj h
    refine wellFormed_allBands_map expmjd _ ?_
    intro b
    simp
  · intro expmjd t0 umin that
    refine wellFormed_allBands_map expmjd _ ?_
    intro b
    simp
  · intro expmjd p r h
    simp only [applyAmcvn] at h
    split_ifs at h with h1 h2
    · obtain rfl := Except.ok.inj h
      have hbase : (amcvnBase expmjd p).length = expmjd.length := by
        simp [amcvnBase]
      have hadds : (amcvnAdds expmjd p).length = expmjd.length := by
        simp [amcvnAdds]
      constructor
      · simp [allBands]
      · intro pr hpr
        simp only [List.mem_cons, List.not_mem_nil, or_false] at hpr
        rcases hpr with h3 | h3 | h3 | h3 | h3 | h3 <;>
          (rw [h3]; simp [List.length_zipWith, hbase, hadds])
    · obtain rfl := Except.ok.inj h
      refine wellFormed_allBands_map expmjd _ ?_
      intro b
      simp [amcvnBase]
  · intro fs bhEval expmjd filename t0 r h
    match hfs : fs filename with
    | none => simp [applyBHMicrolens, hfs] at h
    | some lc =>
        by_cases hl : lc.times.length < 2
        · simp [applyBHMicrolens, hfs, hl] at h
        · simp only [applyBHMicrolens, hfs, hl, if_false] at h
          obtain rfl := Except.ok.inj h
          refine wellFormed_allBands_map expmjd _ ?_
          intro b
          simp

/-- Witness for the six-bands theorem: a cached periodic call, a direct
microlensing call and a burst-free AM CVn call at concrete inputs. -/
theorem allEvaluators_sixBands_witness :
    wellFormed [2] ((⟨stdMagoff phaseEval exEntry.splines exEntry.period
        ([2].map (fun e => e - 0)), exHitState, false⟩ : StdResult).magoff) ∧
    wellFormed [1, 2] (applyMicrolens [1, 2] 0 1 1) ∧
    wellFormed [7] (allBands.map (fun b => (b, amcvnBase [7] exAmcvnNoBurst))) := by
  refine ⟨?_, ?_, ?_⟩
  · exact allEvaluators_sixBands.1 exFs phaseEval [2] "lc.dat" 0 none true none
      exHitState _ (by simp [applyStdPeriodic, exHitState, cacheGet])
  · exact allEvaluators_sixBands.2.2.2.2.2.1 [1, 2] 0 1 1
  · exact allEvaluators_sixBands.2.2.2.2.2.2.2.2.1 [7] exAmcvnNoBurst _
      (by simp [applyAmcvn, exAmcvnNoBurst])

end

end PhotUtils
